import Mathlib

/-!
Verification of the coronary-reconstruction application's core
(`src/models/coronary_reconstructor.py` and `src/routes/coronary.py`)
against its natural-language specification.

The 2D skeleton pipeline is embedded shallowly and executably:

* a skeleton mask is a `List (List Bool)` (rows of pixels); its foreground
  pixels, enumerated in row-major order, reproduce
  `np.column_stack(np.where(skeleton))`;
* the graph built by `_skeleton_to_graph` is represented by the point list
  itself: node `i` is the `i`-th foreground pixel, and two nodes are adjacent
  when their squared pixel distance is at most `2`.  The KD-tree radius used
  by the source is `sqrt 2 + 0.01`, whose square is `2.0283...`; on integer
  pixel coordinates this retains exactly the squared distances `0, 1, 2`,
  i.e. 8-connectivity, so the integer test `dist2 <= 2` is the same
  predicate.  Edges are inserted for `i < j` pairs while scanning nodes in
  index order, hence each adjacency list is sorted by node index, which is
  the neighbour order the model uses;
* the recursive closure `traverse_tree` (mutating `visited`, `all_branches`
  and `bifurcations`) becomes a state-passing function.  `visited` is kept
  as the list of nodes in the order they were marked, guarded exactly like
  the Python membership test, so the set semantics is preserved while the
  marking trace stays observable.  The recursion is driven by a fuel
  argument; the callers pass `pts.length + 1`, which dominates the nesting
  depth of the source recursion (every nested call first marks an unvisited
  node, and a call on a visited node returns at once);
* `_analyze_bifurcation` normalises each nonzero direction vector by its
  positive Euclidean norm.  The model stores the unnormalised integer
  offsets: the `norm > 0` filter and the number and multiplicity of kept
  vectors are unchanged by the scaling, and a stored offset is nonzero iff
  the source's stored vector is a unit vector;
* `networkx.connected_components` enumerates components in order of their
  first (lowest-index) node; the model lists each component, keyed by its
  minimal node, as the sorted list of nodes BFS-reachable from it.  The
  iteration order of `graph.subgraph(component).nodes()` used for
  `sub_endpoints` is modelled as ascending node order.

Real-valued geometry (`calibrate_c_arm_system`, Murray's law, optimal
viewing angles, the mock 3D triangulation) is embedded over `Real`,
idealising IEEE floats.  `np.random.normal` draws are supplied as explicit
oracle arguments, and wall-clock `processing_time` is omitted: no claim
depends on either beyond their presence.  Python exceptions are embedded as
`Except String`; a function documented to raise is total here and returns
`Except.error` exactly where the source raises.
-/

/-- A pixel position `(row, col)`, as produced by `np.where` on the mask. -/
abbrev Pt := Int × Int

/-- Squared Euclidean distance between two pixel positions. -/
def dist2 (p q : Pt) : Int :=
  (p.1 - q.1) * (p.1 - q.1) + (p.2 - q.2) * (p.2 - q.2)

/-- Position of node `i` in the graph built from the point list. -/
def posOf (pts : List Pt) (i : Nat) : Pt := pts.getD i (0, 0)

/-- Adjacency of `_skeleton_to_graph`: both indices are nodes, they differ,
and they lie within the 8-connectivity radius (`dist2 <= 2`, see the header
comment on the KD-tree radius). -/
def adjB (pts : List Pt) (i j : Nat) : Bool :=
  decide (i < pts.length) && decide (j < pts.length) && decide (i ≠ j) &&
    decide (dist2 (posOf pts i) (posOf pts j) ≤ 2)

/-- Neighbour list of node `i`, in ascending node order (see header). -/
def neighborsOf (pts : List Pt) (i : Nat) : List Nat :=
  (List.range pts.length).filter (fun j => adjB pts i j)

/-- Degree of a node, `graph.degree(n)` in the source. -/
def nodeDegree (pts : List Pt) (i : Nat) : Nat := (neighborsOf pts i).length

/-- Foreground pixels of a boolean mask in row-major order, exactly the node
enumeration `np.column_stack(np.where(skeleton))`. -/
def foregroundPoints (mask : List (List Bool)) : List Pt :=
  (mask.enum.map (fun rowp =>
    (rowp.2.enum.filterMap (fun cp =>
      if cp.2 then some ((rowp.1 : Int), (cp.1 : Int)) else none)))).flatten

def tagTerminal : String := "terminal"

def tagParent : String := "parent"

/-- A branch segment: the polyline of positions, the type tag (the source
uses the strings `terminal` / `parent`), and the stored point count. -/
structure Branch where
  path : List Pt
  btype : String
  length : Nat
deriving DecidableEq, Repr

/-- A 2D bifurcation record: junction position, the kept direction offsets
(unnormalised, see header), and the stored degree (`len(neighbors) + 1`). -/
structure Bifurcation where
  position : Pt
  branches : List Pt
  degree : Nat
deriving DecidableEq, Repr

/-- The mutable state of the `traverse_tree` closure. -/
structure TravState where
  visited : List Nat
  branches : List Branch
  bifurcations : List Bifurcation
deriving DecidableEq, Repr

/-- The `_analyze_bifurcation` method: directions toward at most the first
three non-parent neighbours, kept when nonzero; a record is produced only
when at least two survive.  The stored degree is `len(neighbors) + 1`. -/
def analyze_bifurcation (pts : List Pt) (nbrs : List Nat) (npos : Pt) :
    Option Bifurcation :=
  let vecs := ((nbrs.take 3).map (fun m =>
      ((posOf pts m).1 - npos.1, (posOf pts m).2 - npos.2))).filter
      (fun d => decide (d ≠ ((0 : Int), (0 : Int))))
  if vecs.length ≥ 2 then some ⟨npos, vecs, nbrs.length + 1⟩ else none

/-- Append a branch when the accumulated path is longer than
`min_branch_length`, as both emission sites of `traverse_tree` do. -/
def emitBranch (minLen : Nat) (tag : String) (path : List Pt) (s : TravState) :
    TravState :=
  if path.length > minLen then
    ⟨s.visited, s.branches ++ [⟨path, tag, path.length⟩], s.bifurcations⟩
  else s

/-- Append the bifurcation record when `_analyze_bifurcation` produced one
(the source's extra `len >= 2` test is already part of that production). -/
def emitBifRecord (pts : List Pt) (nbrs : List Nat) (npos : Pt)
    (s : TravState) : TravState :=
  match analyze_bifurcation pts nbrs npos with
  | some bi => ⟨s.visited, s.branches, s.bifurcations ++ [bi]⟩
  | none => s

/-- The recursive `traverse_tree` closure of `_extract_complete_vessel_tree`,
with the shared mutable state passed explicitly and the recursion driven by
fuel (callers pass `pts.length + 1`, an upper bound on the source's nesting
depth; see the header comment). -/
def traverse_tree (pts : List Pt) (minLen : Nat) :
    Nat → Nat → Option Nat → List Pt → TravState → TravState
  | 0, _, _, _, s => s
  | fuel + 1, node, parent, path0, s =>
    if node ∈ s.visited then s
    else
      let s1 : TravState := ⟨node :: s.visited, s.branches, s.bifurcations⟩
      let npos := posOf pts node
      let path := path0 ++ [npos]
      let nbrs := (neighborsOf pts node).filter (fun m => decide (some m ≠ parent))
      if nbrs.length = 0 then
        emitBranch minLen tagTerminal path s1
      else if nbrs.length = 1 then
        traverse_tree pts minLen fuel (nbrs.getD 0 0) (some node) path s1
      else
        nbrs.foldl
          (fun st m => traverse_tree pts minLen fuel m (some node) [npos] st)
          (emitBifRecord pts nbrs npos (emitBranch minLen tagParent path s1))

/-- One breadth-first expansion step used to model
`nx.single_source_shortest_path` reachability and `nx.connected_components`. -/
def reachStep (pts : List Pt) (s : Finset Nat) : Finset Nat :=
  s ∪ (Finset.range pts.length).filter (fun j => ∃ w ∈ s, adjB pts w j = true)

/-- `k`-fold expansion from a start node. -/
def reachN (pts : List Pt) : Nat → Nat → Finset Nat
  | 0, i => {i}
  | k + 1, i => reachStep pts (reachN pts k i)

/-- Everything reachable from `i`: `pts.length` expansion steps saturate. -/
def reachSet (pts : List Pt) (i : Nat) : Finset Nat := reachN pts pts.length i

/-- Size of `nx.single_source_shortest_path(graph, endpoint)`: the number of
nodes reachable from `endpoint`, itself included. -/
def reachCount (pts : List Pt) (i : Nat) : Nat := (reachSet pts i).card

/-- Endpoints (degree-1 nodes) in node order. -/
def endpointsList (pts : List Pt) : List Nat :=
  (List.range pts.length).filter (fun v => nodeDegree pts v == 1)

/-- The `_find_root_node` method: with no endpoints, the first node;
otherwise the scan keeping the first endpoint whose reachable count strictly
exceeds the best so far, starting from `(0, endpoints[0])`. -/
def find_root_node (pts : List Pt) : Nat :=
  match endpointsList pts with
  | [] => 0
  | e :: rest =>
    ((e :: rest).foldl
      (fun best ep =>
        if reachCount pts ep > best.1 then (reachCount pts ep, ep) else best)
      ((0 : Nat), e)).2

/-- The connected components of the graph in the order
`nx.connected_components` yields them: one per minimal-index representative,
each listed as its sorted node list (see the header on subgraph order). -/
def componentsList (pts : List Pt) : List (List Nat) :=
  ((List.range pts.length).filter
      (fun i => decide (∀ j ∈ List.range i, i ∉ reachSet pts j))).map
    (fun i => (List.range pts.length).filter (fun j => decide (j ∈ reachSet pts i)))

/-- Degree of `v` inside `graph.subgraph(component)`: neighbours restricted
to the component. -/
def subDegree (pts : List Pt) (comp : List Nat) (v : Nat) : Nat :=
  (comp.filter (fun w => adjB pts v w)).length

/-- `sub_endpoints`: the degree-1 nodes of the component's subgraph. -/
def subEndpoints (pts : List Pt) (comp : List Nat) : List Nat :=
  comp.filter (fun v => subDegree pts comp v == 1)

/-- The disconnected-component loop of `_extract_complete_vessel_tree`: for
each component that still contains an unvisited node, start a new traversal
at its first subgraph endpoint when the component has one; a component with
no endpoint is left alone (the source has no else branch). -/
def componentPhase (pts : List Pt) (minLen : Nat) (s0 : TravState) : TravState :=
  (componentsList pts).foldl
    (fun st comp =>
      if comp.any (fun v => decide (v ∉ st.visited)) then
        if (subEndpoints pts comp).length = 0 then st
        else
          traverse_tree pts minLen (pts.length + 1)
            ((subEndpoints pts comp).getD 0 0) none [] st
      else st)
    s0

/-- The complete traversal state after the root traversal and the
disconnected-component loop of `_extract_complete_vessel_tree`. -/
def extractionState (pts : List Pt) (minLen : Nat) : TravState :=
  componentPhase pts minLen
    (traverse_tree pts minLen (pts.length + 1) (find_root_node pts) none [] ⟨[], [], []⟩)

/-- `_find_main_centerline`: the path of the first branch of maximal stored
length (Python's `max` keeps the earliest maximum). -/
def find_main_centerline (branches : List Branch) : List Pt :=
  match branches with
  | [] => []
  | b :: rest =>
    ((b :: rest).foldl (fun best c => if c.length > best.length then c else best) b).path

/-- The dictionary returned by `_extract_complete_vessel_tree` (and by
`extract_vessel_centerlines`).  The failure dictionary of the source carries
only `branches`, `tree` and `bifurcations`; the remaining fields are set to
their canonical empty values there. -/
structure VesselTreeResult where
  branches : List Branch
  main_centerline : List Pt
  tree : Option (List Pt)
  bifurcations : List Bifurcation
  num_branches : Nat
  total_length : Nat
deriving DecidableEq, Repr

/-- The empty-shaped dictionary `\x7b'branches': [], 'tree': None,
'bifurcations': []\x7d` used on extraction failure and as the per-view
placeholder. -/
def emptyVesselTreeResult : VesselTreeResult := ⟨[], [], none, [], 0, 0⟩

/-- `_extract_complete_vessel_tree`: empty graph short-circuit, root
traversal, component loop, main centerline, and the summary fields. -/
def extract_complete_vessel_tree (pts : List Pt) (minLen : Nat) :
    VesselTreeResult :=
  if pts.length = 0 then ⟨[], [], none, [], 0, 0⟩
  else
    let st := extractionState pts minLen
    ⟨st.branches, find_main_centerline st.branches, some pts, st.bifurcations,
      st.branches.length, (st.branches.map (fun b => b.length)).sum⟩

/-- `extract_vessel_centerlines`.  The upstream image work (validation,
CLAHE, Frangi, thresholding, skeletonisation) is external to the core; its
outcome is the argument: `Except.ok mask` is the produced skeleton,
`Except.error` is any exception on that path (also covering the
zero-Frangi-response early return, which yields the same empty dictionary).
The surrounding `try/except` makes every failure produce the empty-shaped
result instead of propagating. -/
def extract_vessel_centerlines (pre : Except String (List (List Bool)))
    (minLen : Nat) : VesselTreeResult :=
  match pre with
  | .error _ => emptyVesselTreeResult
  | .ok mask => extract_complete_vessel_tree (foregroundPoints mask) minLen

/-- A concrete Y-shaped skeleton mask: a vertical trunk of three pixels
splitting at `(2,2)` into two diagonal arms of two pixels each.  With
`min_branch_length = 2` the trunk and both arm paths are longer than the
minimum. -/
def yMask : List (List Bool) :=
  [[false, false, true, false, false],
   [false, false, true, false, false],
   [false, false, true, false, false],
   [false, true, false, true, false],
   [true, false, false, false, true]]

/-- Foreground pixels of the Y-shaped mask
(`(0,2),(1,2),(2,2),(3,1),(3,3),(4,0),(4,4)`). -/
def yPts : List Pt := foregroundPoints yMask

/-- A mask with two connected components: a three-pixel horizontal path and,
well separated from it, a three-pixel triangle in which every node has
degree 2 (an endpoint-free cycle under 8-connectivity). -/
def triMask : List (List Bool) :=
  [[true, true, true],
   [false, false, false],
   [false, false, false],
   [false, false, false],
   [false, false, false],
   [true, true, false],
   [true, false, false]]

/-- Foreground pixels of the two-component mask. -/
def triPts : List Pt := foregroundPoints triMask

/-- Connectivity in the skeleton graph: the reflexive-transitive closure of
adjacency, the specification-level notion of two nodes sharing a connected
component. -/
def conn (pts : List Pt) (i j : Nat) : Prop :=
  Relation.ReflTransGen (fun a b => adjB pts a b = true) i j

def errTooFewViews : String := "At least 2 views required for 3D reconstruction"

def errLaoRange : String := "LAO/RAO angle out of range [-90, 50]"

def errCranialRange : String := "Cranial/Caudal angle out of range [-40, 40]"

def errTooFewImages : String := "At least 2 images required for 3D reconstruction"

def errCountMismatch : String := "Number of images must match number of angle sets"

def errMissingData : String := "Missing images or angle data"

def methodMultiView : String := "multi_view_complete_tree"

def tagBranch : String := "branch"

/-- The C-arm angle pair passed as the `angles` dictionary. -/
structure CArmAngles where
  lao_rao : ℝ
  cranial_caudal : ℝ

/-- The optional `intrinsics` dictionary of `calibrate_c_arm_system`. -/
structure Intrinsics where
  focal_length : ℝ
  principal_point : ℝ × ℝ
  pixel_spacing : ℝ

/-- The default intrinsic parameters substituted when none are given. -/
noncomputable def defaultIntrinsics : Intrinsics := ⟨1000, (512, 512), 0.3⟩

/-- Rotation about the patient axis for the LAO/RAO angle (`R_alpha`). -/
noncomputable def rotAlpha (alpha : ℝ) : Matrix (Fin 3) (Fin 3) ℝ :=
  !![Real.cos alpha, -Real.sin alpha, 0;
     Real.sin alpha, Real.cos alpha, 0;
     0, 0, 1]

/-- Rotation for the cranial/caudal angle (`R_beta`). -/
noncomputable def rotBeta (beta : ℝ) : Matrix (Fin 3) (Fin 3) ℝ :=
  !![1, 0, 0;
     0, Real.cos beta, -Real.sin beta;
     0, Real.sin beta, Real.cos beta]

/-- The fixed source-to-isocenter translation `t = (0, 0, -1000)`. -/
noncomputable def tVec : Fin 3 → ℝ := ![0, 0, -1000]

/-- The intrinsic matrix `K` built from focal length, pixel spacing and
principal point. -/
noncomputable def intrinsicMatrix (I : Intrinsics) : Matrix (Fin 3) (Fin 3) ℝ :=
  !![I.focal_length / I.pixel_spacing, 0, I.principal_point.1;
     0, I.focal_length / I.pixel_spacing, I.principal_point.2;
     0, 0, 1]

/-- `np.hstack([R, t.reshape(-1, 1)])`: the 3x4 matrix whose first three
columns are `R` and whose last column is `t`. -/
def hstackRt (R : Matrix (Fin 3) (Fin 3) ℝ) (t : Fin 3 → ℝ) :
    Matrix (Fin 3) (Fin 4) ℝ :=
  Matrix.of (fun i j => if h : (j : Nat) < 3 then R i ⟨j, h⟩ else t i)

open scoped Classical in
/-- `calibrate_c_arm_system`: validates both angle ranges (raising, i.e.
returning `Except.error`, in the source's order) and otherwise builds the
3x4 projection matrix `K @ [R_beta R_alpha | t]` with `np.radians` applied
to the angles. -/
noncomputable def calibrate_c_arm_system (a : CArmAngles)
    (intr : Option Intrinsics) : Except String (Matrix (Fin 3) (Fin 4) ℝ) :=
  if -90 ≤ a.lao_rao ∧ a.lao_rao ≤ 50 then
    if -40 ≤ a.cranial_caudal ∧ a.cranial_caudal ≤ 40 then
      Except.ok
        (intrinsicMatrix (intr.getD defaultIntrinsics) *
          hstackRt
            (rotBeta (a.cranial_caudal * Real.pi / 180) *
              rotAlpha (a.lao_rao * Real.pi / 180))
            tVec)
    else Except.error errCranialRange
  else Except.error errLaoRange

/-- The sequential calibration loop of `reconstruct_from_views`: each view is
calibrated with default intrinsics, and the first failure propagates. -/
noncomputable def calibrateAll (angles : List CArmAngles) :
    Except String (List (Matrix (Fin 3) (Fin 4) ℝ)) :=
  match angles with
  | [] => Except.ok []
  | a :: rest =>
    match calibrate_c_arm_system a none with
    | Except.error e => Except.error e
    | Except.ok P =>
      match calibrateAll rest with
      | Except.error e => Except.error e
      | Except.ok Ps => Except.ok (P :: Ps)

/-- A 3D branch produced by `_reconstruct_branches_3d`. -/
structure Branch3D where
  points : List (ℝ × ℝ × ℝ)
  btype : String
  confidence : ℝ
  views_used : Nat

/-- `_reconstruct_branches_3d`: every 2D branch with more than 5 path points
yields a 3D branch whose `k`-th point is `(col, row, z)`; the mock depth
`500 + np.random.normal(0, 50)` drawn for point `k` of branch `j` of view
`i` is supplied by the oracle `z`. -/
def reconstruct_branches_3d (all_branches : List (List Branch))
    (z : Nat → Nat → Nat → ℝ) : List Branch3D :=
  (all_branches.enum.map (fun iv =>
    (iv.2.enum.filterMap (fun jb =>
      if jb.2.path.length > 5 then
        some
          ⟨jb.2.path.enum.map (fun kp =>
              ((kp.2.2 : ℝ), (kp.2.1 : ℝ), z iv.1 jb.1 kp.1)),
            tagBranch, 0.8, 1⟩
      else none)))).flatten

/-- The 3D graph built by `_merge_branches_to_tree`: one node per 3D point,
consecutive points of a branch connected. -/
structure Graph3D where
  nodesPos : List (ℝ × ℝ × ℝ)
  edges : List (Nat × Nat)

/-- `_merge_branches_to_tree`: nodes are numbered consecutively across
branches, and consecutive points within each branch are joined. -/
def merge_branches_to_tree (bs : List Branch3D) : Graph3D :=
  bs.foldl
    (fun g b =>
      ⟨g.nodesPos ++ b.points,
        g.edges ++
          (List.range (b.points.length - 1)).map
            (fun i => (g.nodesPos.length + i, g.nodesPos.length + i + 1))⟩)
    ⟨[], []⟩

/-- Degree of a node of the merged 3D graph. -/
def degree3D (g : Graph3D) (v : Nat) : Nat :=
  (g.edges.filter (fun e => decide (e.1 = v) || decide (e.2 = v))).length

/-- A 3D bifurcation record (`_detect_3d_bifurcations`). -/
structure Bifurcation3D where
  position : ℝ × ℝ × ℝ
  degree : Nat
  confidence : ℝ

/-- `_detect_3d_bifurcations`: every node of degree at least 3 is reported
with its position, degree and the fixed confidence `0.7`. -/
def detect_3d_bifurcations (g : Graph3D) : List Bifurcation3D :=
  (List.range g.nodesPos.length).filterMap (fun v =>
    if degree3D g v ≥ 3 then some ⟨g.nodesPos.getD v (0, 0, 0), degree3D g v, 0.7⟩
    else none)

/-- The result dictionary of `reconstruct_from_views`. -/
structure ReconstructionResult where
  vessel_tree_3d : Graph3D
  branches_3d : List Branch3D
  bifurcations : List Bifurcation3D
  num_views_used : Nat
  num_branches : Nat
  reconstruction_method : String
  success : Bool

/-- The per-view collection loop of `reconstruct_from_views`: the `i`-th
future's outcome fills the `i`-th slot of the `vessel_trees` list, a failed
or timed-out view being replaced by the empty placeholder dictionary. -/
def collectVesselTrees (views : List (Except String VesselTreeResult)) :
    List VesselTreeResult :=
  views.map (fun r =>
    match r with
    | Except.ok t => t
    | Except.error _ => emptyVesselTreeResult)

/-- The companion `all_branches` accumulator of the same loop: a failed view
contributes an empty branch list at its index. -/
def collectAllBranches (views : List (Except String VesselTreeResult)) :
    List (List Branch) :=
  views.map (fun r =>
    match r with
    | Except.ok t => t.branches
    | Except.error _ => [])

/-- `reconstruct_from_views`.  An input image is represented by the outcome
of its per-view `extract_vessel_centerlines` task (`Except.error` covering
both a raised exception and the 30-second future timeout, which the source
absorbs identically).  Fewer than two views raises; calibration errors
propagate; otherwise the per-view results are collected in submission
order and the 3D stages run on them. -/
noncomputable def reconstruct_from_views
    (views : List (Except String VesselTreeResult)) (angles : List CArmAngles)
    (z : Nat → Nat → Nat → ℝ) : Except String ReconstructionResult :=
  if views.length < 2 then Except.error errTooFewViews
  else
    match calibrateAll angles with
    | Except.error e => Except.error e
    | Except.ok _ =>
      let all_branches := collectAllBranches views
      let branches_3d := reconstruct_branches_3d all_branches z
      let tree3d := merge_branches_to_tree branches_3d
      Except.ok
        ⟨tree3d, branches_3d, detect_3d_bifurcations tree3d, views.length,
          branches_3d.length, methodMultiView, decide (branches_3d.length > 0)⟩

/-- The input validation of the `/reconstruct` route (`reconstruct_3d`,
lines 100-110): missing data, fewer than two images, or an image/angle count
mismatch each produce a 400 error message before the reconstructor is
invoked. -/
def reconstruct_3d_validate (images : Option (List String))
    (angles : Option (List CArmAngles)) : Option String :=
  match images, angles with
  | some imgs, some angs =>
    if imgs.length < 2 then some errTooFewImages
    else if imgs.length ≠ angs.length then some errCountMismatch
    else none
  | _, _ => some errMissingData

/-- The dictionary returned by `calculate_murray_law_angles`. -/
structure MurrayResult where
  murray_ratio : ℝ
  is_valid : Prop

open scoped Classical in
/-- `calculate_murray_law_angles`: for three positive diameters the ratio of
the parent diameter to the cube-sum expectation `(d1^3 + d2^3)^(1/3)`, valid
when it lies in `[0.8, 1.2]`; otherwise ratio `0`, invalid. -/
noncomputable def calculate_murray_law_angles (parent_d d1 d2 : ℝ) :
    MurrayResult :=
  if parent_d > 0 ∧ d1 > 0 ∧ d2 > 0 then
    ⟨parent_d / (d1 ^ 3 + d2 ^ 3) ^ ((1 : ℝ) / 3),
      0.8 ≤ parent_d / (d1 ^ 3 + d2 ^ 3) ^ ((1 : ℝ) / 3) ∧
        parent_d / (d1 ^ 3 + d2 ^ 3) ^ ((1 : ℝ) / 3) ≤ 1.2⟩
  else ⟨0, False⟩

/-- A 3D vector as used by the route-level geometry helpers. -/
abbrev V3 := ℝ × ℝ × ℝ

/-- `np.cross` on 3D vectors. -/
def cross3 (a b : V3) : V3 :=
  (a.2.1 * b.2.2 - a.2.2 * b.2.1,
   a.2.2 * b.1 - a.1 * b.2.2,
   a.1 * b.2.1 - a.2.1 * b.1)

/-- `np.dot` on 3D vectors. -/
def dot3 (a b : V3) : ℝ := a.1 * b.1 + a.2.1 * b.2.1 + a.2.2 * b.2.2

/-- `np.linalg.norm` on 3D vectors. -/
noncomputable def norm3 (a : V3) : ℝ :=
  Real.sqrt (a.1 * a.1 + a.2.1 * a.2.1 + a.2.2 * a.2.2)

/-- `np.clip(x, lo, hi)`. -/
noncomputable def clip (x lo hi : ℝ) : ℝ := max lo (min x hi)

/-- `np.arctan2(y, x)`, the argument of the complex number `x + y i`. -/
noncomputable def arctan2 (y x : ℝ) : ℝ := Complex.arg ⟨x, y⟩

/-- `np.round(x, 1)` (the half-to-even tie rule of `np.round` differs from
`round` only at exact ties, which no claim exercises). -/
noncomputable def round1 (x : ℝ) : ℝ := (round (x * 10) : ℤ) / 10

/-- The dictionary returned by `calculate_optimal_viewing_angles`. -/
structure OptimalView where
  optimal_view_direction : V3
  bifurcation_angle : ℝ
  lao_rao : ℝ
  cranial_caudal : ℝ
  plane_normal : V3
  branch_1_vector : V3
  branch_2_vector : V3
  main_to_plane_angle : ℝ
  separation_quality : ℝ
  viewing_quality : ℝ
  confidence : ℝ

open scoped Classical in
/-- `calculate_optimal_viewing_angles`: the `branch_vectors` dictionary is
modelled by its three possible entries.  Fewer than two entries, a missing
daughter vector, or a near-parallel daughter pair (`|v1 x v2| < 1e-6`) give
no result; otherwise the normalised cross product is the bifurcation-plane
normal and optimal viewing direction, converted to C-arm angles, with the
bifurcation angle `arccos(clip(v1 . v2))` in degrees and the quality
metrics of the source. -/
noncomputable def calculate_optimal_viewing_angles
    (main_vessel branch_1 branch_2 : Option V3) : Option OptimalView :=
  if (if main_vessel.isSome then 1 else 0) + (if branch_1.isSome then 1 else 0) +
      (if branch_2.isSome then 1 else 0) < 2 then none
  else
    match branch_1, branch_2 with
    | some v1, some v2 =>
      let pn := cross3 v1 v2
      let mag := norm3 pn
      if mag < 1e-6 then none
      else
        let nrm : V3 := (pn.1 / mag, pn.2.1 / mag, pn.2.2 / mag)
        let ang := Real.arccos (clip (dot3 v1 v2) (-1) 1) * (180 / Real.pi)
        let mtp :=
          match main_vessel with
          | some mv =>
            Real.arcsin (clip |dot3 mv nrm| 0 1) * (180 / Real.pi)
          | none => 90
        let sep := Real.sin (ang * Real.pi / 180)
        let vq := |dot3 nrm (0, 0, 1)|
        some
          ⟨nrm, ang,
            round1 (arctan2 nrm.1 nrm.2.2 * (180 / Real.pi)),
            round1 (Real.arcsin (clip nrm.2.1 (-1) 1) * (180 / Real.pi)),
            nrm, v1, v2, mtp, sep, vq, min sep vq⟩
    | _, _ => none

def labelMainVessel : String := "main_vessel"

def labelBranch1 : String := "branch_1"

def labelBranch2 : String := "branch_2"

def labelBifurcation : String := "bifurcation"

def tagManualBifurcation : String := "manual_bifurcation"

/-- The fixed branch-label order of `perform_manual_3d_reconstruction`. -/
def branchTypeLabels : List String :=
  [labelMainVessel, labelBranch1, labelBranch2, labelBifurcation]

/-- One entry of the processed manual-tracking list: the view's angles, its
per-label 2D point lists, and the image shape `(height, width)`. -/
structure TrackView where
  angles : CArmAngles
  branches : List (String × List (ℝ × ℝ))
  image_shape : Nat × Nat

/-- One pooled 2D point with the metadata of its view. -/
structure TrackedPoint where
  point : ℝ × ℝ
  angles : CArmAngles
  image_shape : Nat × Nat

/-- Lookup of a branch label in a view's tracking dictionary. -/
def lookupBranch (tv : TrackView) (label : String) : Option (List (ℝ × ℝ)) :=
  (tv.branches.find? (fun p => p.1 == label)).map (fun p => p.2)

/-- The point-pooling loop of `perform_manual_3d_reconstruction`: all points
carrying the given label, across views in order. -/
def collectPointsFor (tracking : List TrackView) (label : String) :
    List TrackedPoint :=
  (tracking.map (fun tv =>
    match lookupBranch tv label with
    | some points => points.map (fun p => (⟨p, tv.angles, tv.image_shape⟩ : TrackedPoint))
    | none => [])).flatten

/-- `triangulate_points_fast`: fewer than two pooled points give nothing;
otherwise each point is mapped to a pseudo-3D position from its normalised
image coordinates, its view's angles and a mock depth `500 +
np.random.normal(0, 30)` supplied by the oracle for the point's index. -/
noncomputable def triangulate_points_fast (pts2 : List TrackedPoint)
    (depth : Nat → ℝ) : List V3 :=
  if pts2.length < 2 then []
  else
    pts2.enum.map (fun ip =>
      let w : ℝ := (ip.2.image_shape.2 : ℝ)
      let h : ℝ := (ip.2.image_shape.1 : ℝ)
      let xn := (ip.2.point.1 - w / 2) / (w / 2)
      let yn := (ip.2.point.2 - h / 2) / (h / 2)
      let lr := ip.2.angles.lao_rao * Real.pi / 180
      let cc := ip.2.angles.cranial_caudal * Real.pi / 180
      let d := depth ip.1
      (xn * d * Real.sin lr, yn * d * Real.sin cc, d * Real.cos lr * Real.cos cc))

/-- A 3D branch of the manual reconstruction result. -/
structure ManualBranch3D where
  btype : String
  points : List V3
  confidence : ℝ

/-- A bifurcation record of the manual reconstruction result. -/
structure ManualBifurcation where
  position : V3
  btype : String
  confidence : ℝ

/-- The result dictionary of `perform_manual_3d_reconstruction` (wall-clock
`processing_time` omitted, see the header). -/
structure ManualResult where
  total_points : Nat
  branches_3d : List ManualBranch3D
  bifurcations : List ManualBifurcation
  confidence : ℝ

open scoped Classical in
/-- `perform_manual_3d_reconstruction`: fewer than two processed views give
the all-zero result; otherwise each branch label pools its points across
views, labels with at least two pooled points are triangulated, the
`bifurcation` label's 3D points become bifurcation records, and confidence
is `min(1, branches/3)`.  The depth draws are supplied per label and point
index. -/
noncomputable def perform_manual_3d_reconstruction (tracking : List TrackView)
    (depthOf : String → Nat → ℝ) : ManualResult :=
  if tracking.length < 2 then ⟨0, [], [], 0⟩
  else
    let step := fun (acc : List ManualBranch3D × List ManualBifurcation × Nat)
        (label : String) =>
      let bp := collectPointsFor tracking label
      let total := acc.2.2 + bp.length
      if bp.length ≥ 2 then
        let p3 := triangulate_points_fast bp (depthOf label)
        if p3.length > 0 then
          (acc.1 ++ [⟨label, p3, min 1 ((bp.length : ℝ) / 4)⟩],
            (if label == labelBifurcation then
              acc.2.1 ++ p3.map (fun q => (⟨q, tagManualBifurcation, 0.9⟩ : ManualBifurcation))
            else acc.2.1),
            total)
        else (acc.1, acc.2.1, total)
      else (acc.1, acc.2.1, total)
    let res := branchTypeLabels.foldl step ([], [], 0)
    ⟨res.2.2, res.1, res.2.1, min 1 ((res.1.length : ℝ) / 3)⟩

/-- Invariant of the traversal state: no node is marked visited twice, and
every emitted branch records its point count and passed the minimum-length
guard. -/
def TravInv (minLen : Nat) (s : TravState) : Prop :=
  s.visited.Nodup ∧
    ∀ b ∈ s.branches, b.length = b.path.length ∧ b.path.length > minLen

theorem emitBranch_visited (minLen : Nat) (tag : String) (path : List Pt)
    (s : TravState) : (emitBranch minLen tag path s).visited = s.visited := by
  unfold emitBranch; split <;> rfl

theorem emitBifRecord_visited (pts : List Pt) (nbrs : List Nat) (npos : Pt)
    (s : TravState) : (emitBifRecord pts nbrs npos s).visited = s.visited := by
  unfold emitBifRecord
  cases analyze_bifurcation pts nbrs npos <;> rfl

theorem emitBranch_inv (minLen : Nat) (tag : String) (path : List Pt)
    (s : TravState) (h : TravInv minLen s) :
    TravInv minLen (emitBranch minLen tag path s) := by
  unfold emitBranch
  split
  · rename_i hlen
    refine ⟨h.1, ?_⟩
    intro b hb
    rcases List.mem_append.1 hb with hb | hb
    · exact h.2 b hb
    · rcases List.mem_singleton.1 hb with rfl
      exact ⟨rfl, hlen⟩
  · exact h

theorem emitBifRecord_inv (pts : List Pt) (minLen : Nat) (nbrs : List Nat)
    (npos : Pt) (s : TravState) (h : TravInv minLen s) :
    TravInv minLen (emitBifRecord pts nbrs npos s) := by
  unfold emitBifRecord
  cases analyze_bifurcation pts nbrs npos
  · exact h
  · exact ⟨h.1, h.2⟩

theorem traverse_tree_inv (pts : List Pt) (minLen : Nat) :
    ∀ (fuel node : Nat) (parent : Option Nat) (path0 : List Pt) (s : TravState),
      TravInv minLen s →
      TravInv minLen (traverse_tree pts minLen fuel node parent path0 s) := by
  intro fuel
  induction fuel with
  | zero => intro node parent path0 s h; simpa [traverse_tree] using h
  | succ fuel ih =>
    intro node parent path0 s h
    have hfold :
        ∀ (l : List Nat) (par : Option Nat) (p0 : List Pt) (st : TravState),
          TravInv minLen st →
          TravInv minLen
            (l.foldl (fun st m => traverse_tree pts minLen fuel m par p0 st) st) := by
      intro l
      induction l with
      | nil => intro par p0 st hst; simpa using hst
      | cons m ms ihl => intro par p0 st hst; exact ihl _ _ _ (ih _ _ _ _ hst)
    rw [traverse_tree]
    by_cases hv : node ∈ s.visited
    · rw [if_pos hv]; exact h
    · rw [if_neg hv]
      simp only []
      have h1 :
          TravInv minLen
            (⟨node :: s.visited, s.branches, s.bifurcations⟩ : TravState) :=
        ⟨List.nodup_cons.2 ⟨hv, h.1⟩, h.2⟩
      by_cases h0 :
          ((neighborsOf pts node).filter (fun m => decide (some m ≠ parent))).length = 0
      · rw [if_pos h0]; exact emitBranch_inv _ _ _ _ h1
      · rw [if_neg h0]
        by_cases hone :
            ((neighborsOf pts node).filter (fun m => decide (some m ≠ parent))).length = 1
        · rw [if_pos hone]; exact ih _ _ _ _ h1
        · rw [if_neg hone]
          exact hfold _ _ _ _
            (emitBifRecord_inv _ _ _ _ _ (emitBranch_inv _ _ _ _ h1))

theorem adjB_of_mem_neighborsOf (pts : List Pt) (node m : Nat)
    (h : m ∈ neighborsOf pts node) : adjB pts node m = true := by
  unfold neighborsOf at h
  exact (List.mem_filter.1 h).2

theorem getD_zero_mem {l : List Nat} (h : l ≠ []) : l.getD 0 0 ∈ l := by
  cases l with
  | nil => exact absurd rfl h
  | cons a t => simp

theorem conn_head (pts : List Pt) (node m v : Nat) (hadj : adjB pts node m = true)
    (hc : conn pts m v) : conn pts node v :=
  Relation.ReflTransGen.head hadj hc

theorem traverse_tree_visited_sound (pts : List Pt) (minLen : Nat) :
    ∀ (fuel node : Nat) (parent : Option Nat) (path0 : List Pt) (s : TravState)
      (v : Nat),
      v ∈ (traverse_tree pts minLen fuel node parent path0 s).visited →
      v ∈ s.visited ∨ conn pts node v := by
  intro fuel
  induction fuel with
  | zero => intro node parent path0 s v hv; exact Or.inl (by simpa [traverse_tree] using hv)
  | succ fuel ih =>
    intro node parent path0 s v hmem
    have hfold :
        ∀ (l : List Nat) (par : Option Nat) (p0 : List Pt) (st : TravState),
          v ∈ (l.foldl (fun st m => traverse_tree pts minLen fuel m par p0 st) st).visited →
          v ∈ st.visited ∨ ∃ m ∈ l, conn pts m v := by
      intro l
      induction l with
      | nil => intro par p0 st hst; exact Or.inl (by simpa using hst)
      | cons m ms ihl =>
        intro par p0 st hst
        rcases ihl par p0 _ (by simpa using hst) with hin | ⟨m2, hm2, hc2⟩
        · rcases ih m par p0 st v hin with hin2 | hc
          · exact Or.inl hin2
          · exact Or.inr ⟨m, List.mem_cons_self m ms, hc⟩
        · exact Or.inr ⟨m2, List.mem_cons_of_mem m hm2, hc2⟩
    rw [traverse_tree] at hmem
    by_cases hv : node ∈ s.visited
    · rw [if_pos hv] at hmem; exact Or.inl hmem
    · rw [if_neg hv] at hmem
      simp only [] at hmem
      have hcons :
          v ∈ node :: s.visited → v ∈ s.visited ∨ conn pts node v := by
        intro hvm
        rcases List.mem_cons.1 hvm with rfl | hvm
        · exact Or.inr Relation.ReflTransGen.refl
        · exact Or.inl hvm
      by_cases h0 :
          ((neighborsOf pts node).filter (fun m => decide (some m ≠ parent))).length = 0
      · rw [if_pos h0] at hmem
        rw [emitBranch_visited] at hmem
        exact hcons hmem
      · rw [if_neg h0] at hmem
        by_cases hone :
            ((neighborsOf pts node).filter (fun m => decide (some m ≠ parent))).length = 1
        · rw [if_pos hone] at hmem
          rcases ih _ _ _ _ v hmem with hin | hc
          · exact hcons hin
          · refine Or.inr (conn_head pts node _ v ?_ hc)
            refine adjB_of_mem_neighborsOf pts node _
              (List.mem_of_mem_filter (getD_zero_mem ?_))
            intro hnil
            rw [hnil] at hone
            exact absurd hone (by simp)
        · rw [if_neg hone] at hmem
          rcases hfold _ _ _ _ hmem with hin | ⟨m, hm, hc⟩
          · rw [emitBifRecord_visited, emitBranch_visited] at hin
            exact hcons hin
          · exact Or.inr
              (conn_head pts node m v
                (adjB_of_mem_neighborsOf pts node m (List.mem_of_mem_filter hm)) hc)

theorem adjB_bounds (pts : List Pt) (i j : Nat) (h : adjB pts i j = true) :
    i < pts.length ∧ j < pts.length := by
  unfold adjB at h
  simp only [Bool.and_eq_true, decide_eq_true_eq] at h
  exact ⟨h.1.1.1, h.1.1.2⟩

theorem self_mem_reachN (pts : List Pt) (i : Nat) :
    ∀ k, i ∈ reachN pts k i := by
  intro k
  induction k with
  | zero => simp [reachN]
  | succ k ihk => exact Finset.mem_union_left _ ihk

theorem reachN_subset_range (pts : List Pt) (i : Nat) (hi : i < pts.length) :
    ∀ k, reachN pts k i ⊆ Finset.range pts.length := by
  intro k
  induction k with
  | zero =>
    intro x hx
    rw [reachN, Finset.mem_singleton] at hx
    subst hx
    exact Finset.mem_range.2 hi
  | succ k ihk =>
    intro x hx
    rcases Finset.mem_union.1 hx with hx | hx
    · exact ihk hx
    · exact Finset.mem_of_mem_filter x hx

theorem reachStep_fix_or_card (pts : List Pt) (i : Nat) :
    ∀ k, reachStep pts (reachN pts k i) = reachN pts k i ∨
      k + 1 ≤ (reachN pts k i).card := by
  intro k
  induction k with
  | zero =>
    refine Or.inr ?_
    simp [reachN]
  | succ k ihk =>
    by_cases heq : reachStep pts (reachN pts (k + 1) i) = reachN pts (k + 1) i
    · exact Or.inl heq
    · refine Or.inr ?_
      rcases ihk with hfix | hcard
      · exact absurd (by rw [reachN, hfix, hfix]) heq
      · have hsub : reachN pts k i ⊆ reachN pts (k + 1) i :=
          Finset.subset_union_left
        have hne : reachN pts k i ≠ reachN pts (k + 1) i := by
          intro hsame
          apply heq
          calc reachStep pts (reachN pts (k + 1) i)
              = reachStep pts (reachN pts k i) := by rw [← hsame]
            _ = reachN pts (k + 1) i := rfl
        have hlt : (reachN pts k i).card < (reachN pts (k + 1) i).card :=
          Finset.card_lt_card (Finset.ssubset_iff_subset_ne.2 ⟨hsub, hne⟩)
        omega

theorem reachSet_fix (pts : List Pt) (i : Nat) (hi : i < pts.length) :
    reachStep pts (reachSet pts i) = reachSet pts i := by
  rcases reachStep_fix_or_card pts i pts.length with hfix | hcard
  · exact hfix
  · have hle : (reachN pts pts.length i).card ≤ pts.length := by
      have := Finset.card_le_card (reachN_subset_range pts i hi pts.length)
      simpa using this
    omega

theorem reachSet_closed (pts : List Pt) (i w u : Nat) (hi : i < pts.length)
    (hw : w ∈ reachSet pts i) (hadj : adjB pts w u = true) :
    u ∈ reachSet pts i := by
  have hu : u ∈ reachStep pts (reachSet pts i) := by
    refine Finset.mem_union_right _ ?_
    refine Finset.mem_filter.2 ⟨Finset.mem_range.2 (adjB_bounds pts w u hadj).2, ?_⟩
    exact ⟨w, hw, hadj⟩
  rwa [reachSet_fix pts i hi] at hu

theorem componentsList_shape (pts : List Pt) (comp : List Nat)
    (h : comp ∈ componentsList pts) :
    ∃ c, c < pts.length ∧
      comp = (List.range pts.length).filter (fun j => decide (j ∈ reachSet pts c)) := by
  unfold componentsList at h
  rcases List.mem_map.1 h with ⟨c, hc, rfl⟩
  exact ⟨c, List.mem_range.1 (List.mem_of_mem_filter hc), rfl⟩

theorem subDegree_eq_nodeDegree (pts : List Pt) (c v : Nat) (hc : c < pts.length)
    (hv : v ∈ reachSet pts c) :
    subDegree pts ((List.range pts.length).filter (fun j => decide (j ∈ reachSet pts c))) v =
      nodeDegree pts v := by
  unfold subDegree nodeDegree neighborsOf
  rw [List.filter_filter]
  refine congrArg List.length (List.filter_congr ?_)
  intro w _
  by_cases ha : adjB pts v w = true
  · have hww : w ∈ reachSet pts c := reachSet_closed pts c v w hc hv ha
    simp [ha, hww]
  · rw [Bool.not_eq_true] at ha
    simp [ha]

/-- A visited node is connected either to the selected root or to some
endpoint (degree-1 node) of the graph. -/
def RootedOrEndpoint (pts : List Pt) (v : Nat) : Prop :=
  conn pts (find_root_node pts) v ∨ ∃ e, nodeDegree pts e = 1 ∧ conn pts e v

theorem componentPhase_sound (pts : List Pt) (minLen : Nat) (s : TravState)
    (hs : ∀ v ∈ s.visited, RootedOrEndpoint pts v) :
    ∀ v ∈ (componentPhase pts minLen s).visited, RootedOrEndpoint pts v := by
  unfold componentPhase
  have aux :
      ∀ (l : List (List Nat)),
        (∀ comp ∈ l, ∃ c, c < pts.length ∧
          comp = (List.range pts.length).filter (fun j => decide (j ∈ reachSet pts c))) →
        ∀ (st : TravState), (∀ v ∈ st.visited, RootedOrEndpoint pts v) →
          ∀ v ∈ (l.foldl
              (fun st comp =>
                if comp.any (fun v => decide (v ∉ st.visited)) then
                  if (subEndpoints pts comp).length = 0 then st
                  else
                    traverse_tree pts minLen (pts.length + 1)
                      ((subEndpoints pts comp).getD 0 0) none [] st
                else st)
              st).visited,
            RootedOrEndpoint pts v := by
    intro l
    induction l with
    | nil => intro _ st hst v hv; exact hst v hv
    | cons comp rest ihl =>
      intro hgood st hst
      rw [List.foldl_cons]
      refine ihl (fun c2 hc2 => hgood c2 (List.mem_cons_of_mem comp hc2)) _ ?_
      intro v hv
      by_cases hany : comp.any (fun v => decide (v ∉ st.visited)) = true
      · rw [if_pos hany] at hv
        by_cases hzero : (subEndpoints pts comp).length = 0
        · rw [if_pos hzero] at hv
          exact hst v hv
        · rw [if_neg hzero] at hv
          rcases traverse_tree_visited_sound pts minLen _ _ _ _ _ v hv with hin | hc
          · exact hst v hin
          · rcases hgood comp (List.mem_cons_self comp rest) with ⟨c, hcn, rfl⟩
            have hmem : (subEndpoints pts _).getD 0 0 ∈ subEndpoints pts
                ((List.range pts.length).filter (fun j => decide (j ∈ reachSet pts c))) :=
              getD_zero_mem (fun hnil => hzero (by rw [hnil]; rfl))
            have hsplit := List.mem_filter.1 hmem
            have he_comp := hsplit.1
            have he_deg : subDegree pts
                ((List.range pts.length).filter (fun j => decide (j ∈ reachSet pts c)))
                ((subEndpoints pts
                  ((List.range pts.length).filter (fun j => decide (j ∈ reachSet pts c)))).getD 0 0) = 1 := by
              have := hsplit.2
              simpa using this
            have he_reach : (subEndpoints pts
                ((List.range pts.length).filter (fun j => decide (j ∈ reachSet pts c)))).getD 0 0 ∈
                reachSet pts c := by
              have := List.mem_filter.1 he_comp
              simpa using this.2
            refine Or.inr ⟨_, ?_, hc⟩
            rw [← subDegree_eq_nodeDegree pts c _ hcn he_reach]
            exact he_deg
      · rw [if_neg hany] at hv
        exact hst v hv
  intro v hv
  refine aux (componentsList pts) ?_ s hs v hv
  intro comp hcomp
  exact componentsList_shape pts comp hcomp

theorem extractionState_sound (pts : List Pt) (minLen : Nat) :
    ∀ v ∈ (extractionState pts minLen).visited, RootedOrEndpoint pts v := by
  unfold extractionState
  refine componentPhase_sound pts minLen _ ?_
  intro v hv
  rcases traverse_tree_visited_sound pts minLen _ _ _ _ _ v hv with hin | hc
  · exact absurd hin (List.not_mem_nil v)
  · exact Or.inl hc

theorem componentPhase_inv (pts : List Pt) (minLen : Nat) (s : TravState)
    (h : TravInv minLen s) : TravInv minLen (componentPhase pts minLen s) := by
  unfold componentPhase
  generalize componentsList pts = l
  induction l generalizing s with
  | nil => simpa using h
  | cons comp rest ihl =>
    rw [List.foldl_cons]
    apply ihl
    by_cases hany : comp.any (fun v => decide (v ∉ s.visited)) = true
    · rw [if_pos hany]
      by_cases hzero : (subEndpoints pts comp).length = 0
      · rw [if_pos hzero]; exact h
      · rw [if_neg hzero]; exact traverse_tree_inv pts minLen _ _ _ _ _ h
    · rw [if_neg hany]; exact h

theorem extractionState_inv (pts : List Pt) (minLen : Nat) :
    TravInv minLen (extractionState pts minLen) := by
  unfold extractionState
  refine componentPhase_inv pts minLen _ ?_
  refine traverse_tree_inv pts minLen _ _ _ _ _ ?_
  exact ⟨List.nodup_nil, fun b hb => absurd hb (List.not_mem_nil b)⟩

theorem calibrateAll_ok (angles : List CArmAngles)
    (h : ∀ a ∈ angles, -90 ≤ a.lao_rao ∧ a.lao_rao ≤ 50 ∧
      -40 ≤ a.cranial_caudal ∧ a.cranial_caudal ≤ 40) :
    ∃ Ps, calibrateAll angles = Except.ok Ps := by
  induction angles with
  | nil => exact ⟨[], rfl⟩
  | cons a rest ihr =>
    obtain ⟨Ps, hPs⟩ := ihr (fun b hb => h b (List.mem_cons_of_mem a hb))
    have ha := h a (List.mem_cons_self a rest)
    have hone : ∃ P, calibrate_c_arm_system a none = Except.ok P := by
      unfold calibrate_c_arm_system
      rw [if_pos ⟨ha.1, ha.2.1⟩, if_pos ⟨ha.2.2.1, ha.2.2.2⟩]
      exact ⟨_, rfl⟩
    obtain ⟨P, hP⟩ := hone
    refine ⟨P :: Ps, ?_⟩
    rw [calibrateAll, hP, hPs]

/-- C1: `extract_vessel_centerlines` never raises: its `try/except` converts
any internal failure into the empty-shaped tree dictionary (empty branch and
bifurcation collections), and a skeleton mask with zero foreground pixels
yields zero branches and zero bifurcations.  (The Lean embedding is total,
so `never raises` is witnessed by the error case returning the empty value
rather than an exception.) -/
theorem C1_extract_tree_failure_and_empty_mask :
    (∀ (msg : String) (minLen : Nat),
      (extract_vessel_centerlines (Except.error msg) minLen).branches = [] ∧
      (extract_vessel_centerlines (Except.error msg) minLen).bifurcations = []) ∧
    (∀ (mask : List (List Bool)) (minLen : Nat),
      foregroundPoints mask = [] →
      (extract_vessel_centerlines (Except.ok mask) minLen).branches = [] ∧
      (extract_vessel_centerlines (Except.ok mask) minLen).bifurcations = [] ∧
      (extract_vessel_centerlines (Except.ok mask) minLen).num_branches = 0) := by
  constructor
  · intro msg minLen; exact ⟨rfl, rfl⟩
  · intro mask minLen hempty
    have hred : extract_vessel_centerlines (Except.ok mask) minLen
        = extract_complete_vessel_tree (foregroundPoints mask) minLen := rfl
    rw [hred, hempty]
    exact ⟨rfl, rfl, rfl⟩

theorem C1_witness :
    foregroundPoints [[false, false]] = [] ∧
    (extract_vessel_centerlines (Except.ok [[false, false]]) 10).branches = [] ∧
    (extract_vessel_centerlines (Except.ok [[false, false]]) 10).bifurcations = [] ∧
    (extract_vessel_centerlines (Except.ok [[false, false]]) 10).num_branches = 0 :=
  ⟨rfl, C1_extract_tree_failure_and_empty_mask.2 [[false, false]] 10 rfl⟩

/-- C2: for a valid call (at least two views, in-range angles), a failed or
timed-out per-view extraction does not abort `reconstruct_from_views`: the
call returns a result with `num_views_used` equal to the number of input
images, and the collected per-view list keeps one slot per input index, an
errored slot holding the empty placeholder tree and a successful slot its
own tree. -/
theorem C2_per_view_failure_absorbed :
    ∀ (views : List (Except String VesselTreeResult)) (angles : List CArmAngles)
      (z : Nat → Nat → Nat → ℝ),
      2 ≤ views.length →
      (∀ a ∈ angles, -90 ≤ a.lao_rao ∧ a.lao_rao ≤ 50 ∧
        -40 ≤ a.cranial_caudal ∧ a.cranial_caudal ≤ 40) →
      (∃ r, reconstruct_from_views views angles z = Except.ok r ∧
        r.num_views_used = views.length) ∧
      (collectVesselTrees views).length = views.length ∧
      (∀ (i : Nat) (hi : i < views.length) (e : String),
        views.get ⟨i, hi⟩ = Except.error e →
        (collectVesselTrees views).getD i emptyVesselTreeResult = emptyVesselTreeResult) ∧
      (∀ (i : Nat) (hi : i < views.length) (t : VesselTreeResult),
        views.get ⟨i, hi⟩ = Except.ok t →
        (collectVesselTrees views).getD i emptyVesselTreeResult = t) := by
  intro views angles z h2 hang
  obtain ⟨Ps, hPs⟩ := calibrateAll_ok angles hang
  refine ⟨?_, ?_, ?_, ?_⟩
  · unfold reconstruct_from_views
    rw [if_neg (by omega), hPs]
    exact ⟨_, rfl, rfl⟩
  · simp [collectVesselTrees]
  · intro i hi e hv
    unfold collectVesselTrees
    have hi2 : i < (views.map (fun r =>
        match r with
        | Except.ok t => t
        | Except.error _ => emptyVesselTreeResult)).length := by
      simpa using hi
    rw [List.getD_eq_getElem _ _ hi2, List.getElem_map]
    have hv2 : views[i] = Except.error e := by
      rwa [List.get_eq_getElem] at hv
    rw [hv2]
  · intro i hi t hv
    unfold collectVesselTrees
    have hi2 : i < (views.map (fun r =>
        match r with
        | Except.ok t => t
        | Except.error _ => emptyVesselTreeResult)).length := by
      simpa using hi
    rw [List.getD_eq_getElem _ _ hi2, List.getElem_map]
    have hv2 : views[i] = Except.ok t := by
      rwa [List.get_eq_getElem] at hv
    rw [hv2]

theorem C2_witness :
    2 ≤ ([Except.error errTooFewViews, Except.ok emptyVesselTreeResult] :
        List (Except String VesselTreeResult)).length ∧
    (∃ r, reconstruct_from_views
        [Except.error errTooFewViews, Except.ok emptyVesselTreeResult]
        [⟨0, 0⟩, ⟨0, 0⟩] (fun _ _ _ => 0) = Except.ok r ∧
      r.num_views_used = 2) := by
  have h := C2_per_view_failure_absorbed
    [Except.error errTooFewViews, Except.ok emptyVesselTreeResult]
    [⟨0, 0⟩, ⟨0, 0⟩] (fun _ _ _ => 0) (by norm_num)
    (by intro a ha; fin_cases ha <;> norm_num)
  exact ⟨by norm_num, h.1⟩

/-- C3 counterexample: on the Y-shaped mask (with `min_branch_length = 2`)
the junction position `(2,2)` belongs to three of the emitted branch
segments - the parent trunk and both daughter arms, each of which starts at
the junction position - so the node-to-branch assignment is not one-to-one
as the claim states. -/
theorem C3_counterexample_junction_in_three_branches :
    ((extract_complete_vessel_tree yPts 2).branches.filter
      (fun b => decide (((2 : Int), (2 : Int)) ∈ b.path))).length = 3 := by
  decide

/-- C3 amended: once the traversal of `_extract_complete_vessel_tree`
completes, no node has been marked visited more than once (the visited trace
has no duplicates), and every emitted branch segment records its point count
and was retained only because that count exceeds the configured minimum
branch length.  The one-to-one node-to-branch part of the original claim is
false: a junction node is emitted into its parent segment and into the head
of each daughter segment, and nodes of too-short or abandoned paths (or of
never-traversed endpoint-free components) belong to no segment. -/
theorem C3_visited_once_and_min_length (pts : List Pt) (minLen : Nat) :
    (extractionState pts minLen).visited.Nodup ∧
    ∀ b ∈ (extractionState pts minLen).branches,
      b.length = b.path.length ∧ b.path.length > minLen := by
  exact extractionState_inv pts minLen

theorem C3_witness :
    ((extractionState yPts 2).branches.getD 0 ⟨[], tagTerminal, 0⟩ ∈
      (extractionState yPts 2).branches) ∧
    (extractionState yPts 2).visited.Nodup ∧
    ((extractionState yPts 2).branches.getD 0 ⟨[], tagTerminal, 0⟩).path.length > 2 :=
  ⟨by decide, (C3_visited_once_and_min_length yPts 2).1,
    ((C3_visited_once_and_min_length yPts 2).2 _ (by decide)).2⟩

/-- C4 counterexample: on the mask with a three-pixel path plus a disjoint
three-pixel triangle (an endpoint-free component), the traversal finishes
with only the path component visited: nodes 3, 4 and 5 - the entire second
connected component, which contained only not-yet-visited nodes after the
primary traversal - are never visited, so that component is not traversed
at all, contradicting the claim's `or from any of its nodes if it has no
endpoint` fallback. -/
theorem C4_counterexample_cycle_component_skipped :
    (extractionState triPts 10).visited = [2, 1, 0] ∧
    3 ∉ (extractionState triPts 10).visited ∧
    4 ∉ (extractionState triPts 10).visited ∧
    5 ∉ (extractionState triPts 10).visited := by
  decide

/-- C4 amended: after the primary traversal, a connected component that
still contains an unvisited node is independently traversed only when it
has an endpoint, starting from one of its own endpoints; endpoint-free
components are skipped.  Formally: every node visited by the completed
extraction is connected either to the selected root or to some endpoint
(degree-1 node) of the graph, so endpoint-free fragments disjoint from the
root's component are never decomposed. -/
theorem C4_components_started_at_endpoints (pts : List Pt) (minLen : Nat)
    (v : Nat) (hv : v ∈ (extractionState pts minLen).visited) :
    conn pts (find_root_node pts) v ∨
      ∃ e, nodeDegree pts e = 1 ∧ conn pts e v :=
  extractionState_sound pts minLen v hv

theorem C4_witness :
    0 ∈ (extractionState triPts 10).visited ∧
    (conn triPts (find_root_node triPts) 0 ∨
      ∃ e, nodeDegree triPts e = 1 ∧ conn triPts e 0) :=
  ⟨by decide, C4_components_started_at_endpoints triPts 10 0 (by decide)⟩

/-- C6: on the Y-shaped mask - one trunk splitting into two arms, trunk and
arm paths all longer than the configured minimum branch length 2 -
extraction returns exactly one bifurcation record, of degree 3, carrying
exactly two direction vectors (both nonzero, hence unit after the source's
normalisation), and exactly three branch segments: one parent trunk and two
terminal arms. -/
theorem C6_y_shape_extraction :
    (extract_complete_vessel_tree yPts 2).bifurcations.length = 1 ∧
    ((extract_complete_vessel_tree yPts 2).bifurcations.getD 0
      ⟨(0, 0), [], 0⟩).degree = 3 ∧
    ((extract_complete_vessel_tree yPts 2).bifurcations.getD 0
      ⟨(0, 0), [], 0⟩).branches.length = 2 ∧
    ((extract_complete_vessel_tree yPts 2).bifurcations.getD 0
      ⟨(0, 0), [], 0⟩).branches.all
      (fun d => decide (d ≠ ((0 : Int), (0 : Int)))) = true ∧
    (extract_complete_vessel_tree yPts 2).branches.length = 3 ∧
    ((extract_complete_vessel_tree yPts 2).branches.filter
      (fun b => b.btype == tagParent)).length = 1 ∧
    ((extract_complete_vessel_tree yPts 2).branches.filter
      (fun b => b.btype == tagTerminal)).length = 2 := by
  decide

/-- C5 counterexample: `reconstruct_from_views` given three images and only
one angle set - a count mismatch the claim says must raise an
input-validation error - returns an ordinary `ok` result instead of
raising. -/
theorem C5_counterexample_mismatch_returns_ok :
    ∃ r, reconstruct_from_views
        [Except.ok emptyVesselTreeResult, Except.ok emptyVesselTreeResult,
          Except.ok emptyVesselTreeResult]
        [⟨0, 0⟩] (fun _ _ _ => 0) = Except.ok r := by
  obtain ⟨Ps, hPs⟩ := calibrateAll_ok [⟨0, 0⟩]
    (by intro a ha; fin_cases ha; norm_num)
  unfold reconstruct_from_views
  rw [if_neg (by norm_num), hPs]
  exact ⟨_, rfl⟩

/-- C5 amended: `reconstruct_from_views` raises the `at least 2 views
required` input-validation error whenever it is given fewer than two images
(in particular for a single image), but it performs no image/angle count
check itself; the count mismatch is rejected with a validation error by the
HTTP route `reconstruct_3d` before the reconstructor is called. -/
theorem C5_too_few_views_and_route_mismatch :
    (∀ (views : List (Except String VesselTreeResult)) (angles : List CArmAngles)
      (z : Nat → Nat → Nat → ℝ),
      views.length < 2 →
      reconstruct_from_views views angles z = Except.error errTooFewViews) ∧
    (∀ (imgs : List String) (angs : List CArmAngles),
      2 ≤ imgs.length → imgs.length ≠ angs.length →
      reconstruct_3d_validate (some imgs) (some angs) = some errCountMismatch) := by
  constructor
  · intro views angles z hlt
    unfold reconstruct_from_views
    rw [if_pos hlt]
  · intro imgs angs h2 hne
    show (if imgs.length < 2 then some errTooFewImages
      else if imgs.length ≠ angs.length then some errCountMismatch else none) =
        some errCountMismatch
    rw [if_neg (by omega), if_pos hne]

theorem C5_witness :
    ([Except.ok emptyVesselTreeResult] :
      List (Except String VesselTreeResult)).length < 2 ∧
    reconstruct_from_views [Except.ok emptyVesselTreeResult] []
      (fun _ _ _ => 0) = Except.error errTooFewViews ∧
    2 ≤ ([tagTerminal, tagParent] : List String).length ∧
    ([tagTerminal, tagParent] : List String).length ≠
      ([⟨0, 0⟩] : List CArmAngles).length ∧
    reconstruct_3d_validate (some [tagTerminal, tagParent]) (some [⟨0, 0⟩]) =
      some errCountMismatch :=
  ⟨by norm_num,
    C5_too_few_views_and_route_mismatch.1 [Except.ok emptyVesselTreeResult] []
      (fun _ _ _ => 0) (by norm_num),
    by norm_num, by norm_num,
    C5_too_few_views_and_route_mismatch.2 [tagTerminal, tagParent] [⟨0, 0⟩]
      (by norm_num) (by norm_num)⟩

/-- C7: `calibrate_c_arm_system` returns a 3x4 projection matrix exactly
when the angles are in range (`lao_rao` in `[-90, 50]` and `cranial_caudal`
in `[-40, 40]`), for any well-formed intrinsics or none, and raises a
validation error otherwise; in particular `lao_rao = 91` raises. -/
theorem C7_calibrate_range_validation :
    (∀ (a : CArmAngles) (intr : Option Intrinsics),
      (∃ P, calibrate_c_arm_system a intr = Except.ok P) ↔
        (-90 ≤ a.lao_rao ∧ a.lao_rao ≤ 50 ∧
          -40 ≤ a.cranial_caudal ∧ a.cranial_caudal ≤ 40)) ∧
    calibrate_c_arm_system ⟨91, 0⟩ none = Except.error errLaoRange := by
  constructor
  · intro a intr
    constructor
    · rintro ⟨P, hP⟩
      unfold calibrate_c_arm_system at hP
      by_cases h1 : -90 ≤ a.lao_rao ∧ a.lao_rao ≤ 50
      · rw [if_pos h1] at hP
        by_cases h2 : -40 ≤ a.cranial_caudal ∧ a.cranial_caudal ≤ 40
        · exact ⟨h1.1, h1.2, h2.1, h2.2⟩
        · rw [if_neg h2] at hP
          exact absurd hP (by simp)
      · rw [if_neg h1] at hP
        exact absurd hP (by simp)
    · rintro ⟨ha, hb, hc, hd⟩
      unfold calibrate_c_arm_system
      rw [if_pos ⟨ha, hb⟩, if_pos ⟨hc, hd⟩]
      exact ⟨_, rfl⟩
  · unfold calibrate_c_arm_system
    rw [if_neg (by norm_num)]

theorem C7_witness :
    ((-90 : ℝ) ≤ 0 ∧ (0 : ℝ) ≤ 50 ∧ (-40 : ℝ) ≤ 0 ∧ (0 : ℝ) ≤ 40) ∧
    ∃ P, calibrate_c_arm_system ⟨0, 0⟩ none = Except.ok P :=
  ⟨by norm_num, (C7_calibrate_range_validation.1 ⟨0, 0⟩ none).mpr (by norm_num)⟩

/-- C8: `calculate_murray_law_angles` returns ratio
`d_p / (d1^3 + d2^3)^(1/3)` with the validity flag holding exactly when the
ratio lies in `[0.8, 1.2]` whenever all three diameters are positive, and
returns ratio `0`, invalid, whenever any diameter is non-positive; the
parent `3.0` with daughters `2.381` yields a ratio within `[0.99, 1.01]`
(approximately 1) flagged valid, and a zero first daughter yields ratio
`0`, invalid. -/
theorem C8_murray_law :
    (∀ p d1 d2 : ℝ,
      (p > 0 ∧ d1 > 0 ∧ d2 > 0 →
        (calculate_murray_law_angles p d1 d2).murray_ratio =
          p / (d1 ^ 3 + d2 ^ 3) ^ ((1 : ℝ) / 3) ∧
        ((calculate_murray_law_angles p d1 d2).is_valid ↔
          0.8 ≤ (calculate_murray_law_angles p d1 d2).murray_ratio ∧
            (calculate_murray_law_angles p d1 d2).murray_ratio ≤ 1.2)) ∧
      (¬(p > 0 ∧ d1 > 0 ∧ d2 > 0) →
        (calculate_murray_law_angles p d1 d2).murray_ratio = 0 ∧
        ¬(calculate_murray_law_angles p d1 d2).is_valid)) ∧
    ((0.99 : ℝ) ≤ (calculate_murray_law_angles 3 2.381 2.381).murray_ratio ∧
      (calculate_murray_law_angles 3 2.381 2.381).murray_ratio ≤ 1.01 ∧
      (calculate_murray_law_angles 3 2.381 2.381).is_valid) ∧
    ((calculate_murray_law_angles 3 0 2.381).murray_ratio = 0 ∧
      ¬(calculate_murray_law_angles 3 0 2.381).is_valid) := by
  have hgen : ∀ p d1 d2 : ℝ,
      (p > 0 ∧ d1 > 0 ∧ d2 > 0 →
        (calculate_murray_law_angles p d1 d2).murray_ratio =
          p / (d1 ^ 3 + d2 ^ 3) ^ ((1 : ℝ) / 3) ∧
        ((calculate_murray_law_angles p d1 d2).is_valid ↔
          0.8 ≤ (calculate_murray_law_angles p d1 d2).murray_ratio ∧
            (calculate_murray_law_angles p d1 d2).murray_ratio ≤ 1.2)) ∧
      (¬(p > 0 ∧ d1 > 0 ∧ d2 > 0) →
        (calculate_murray_law_angles p d1 d2).murray_ratio = 0 ∧
        ¬(calculate_murray_law_angles p d1 d2).is_valid) := by
    intro p d1 d2
    constructor
    · intro hpos
      have hval : calculate_murray_law_angles p d1 d2 =
          ⟨p / (d1 ^ 3 + d2 ^ 3) ^ ((1 : ℝ) / 3),
            0.8 ≤ p / (d1 ^ 3 + d2 ^ 3) ^ ((1 : ℝ) / 3) ∧
              p / (d1 ^ 3 + d2 ^ 3) ^ ((1 : ℝ) / 3) ≤ 1.2⟩ := by
        unfold calculate_murray_law_angles
        rw [if_pos hpos]
      rw [hval]
      exact ⟨rfl, Iff.rfl⟩
    · intro hneg
      have hval : calculate_murray_law_angles p d1 d2 =
          ⟨0, False⟩ := by
        unfold calculate_murray_law_angles
        rw [if_neg hneg]
      rw [hval]
      exact ⟨rfl, fun h => h⟩
  refine ⟨hgen, ?_, ?_⟩
  · have hcond : (3 : ℝ) > 0 ∧ (2.381 : ℝ) > 0 ∧ (2.381 : ℝ) > 0 := by norm_num
    have hval : calculate_murray_law_angles 3 2.381 2.381 =
        ⟨3 / ((2.381 : ℝ) ^ 3 + (2.381 : ℝ) ^ 3) ^ ((1 : ℝ) / 3),
          0.8 ≤ 3 / ((2.381 : ℝ) ^ 3 + (2.381 : ℝ) ^ 3) ^ ((1 : ℝ) / 3) ∧
            3 / ((2.381 : ℝ) ^ 3 + (2.381 : ℝ) ^ 3) ^ ((1 : ℝ) / 3) ≤ 1.2⟩ := by
      unfold calculate_murray_law_angles
      rw [if_pos hcond]
    have hspos : (0 : ℝ) < (2.381 : ℝ) ^ 3 + (2.381 : ℝ) ^ 3 := by norm_num
    have hcpos : (0 : ℝ) < ((2.381 : ℝ) ^ 3 + (2.381 : ℝ) ^ 3) ^ ((1 : ℝ) / 3) :=
      Real.rpow_pos_of_pos hspos _
    have hc3 : (((2.381 : ℝ) ^ 3 + (2.381 : ℝ) ^ 3) ^ ((1 : ℝ) / 3)) ^ (3 : ℕ) =
        (2.381 : ℝ) ^ 3 + (2.381 : ℝ) ^ 3 := by
      rw [← Real.rpow_natCast
          (((2.381 : ℝ) ^ 3 + (2.381 : ℝ) ^ 3) ^ ((1 : ℝ) / 3)) 3,
        ← Real.rpow_mul hspos.le]
      rw [show ((1 : ℝ) / 3) * (3 : ℕ) = 1 by norm_num, Real.rpow_one]
    have hlow : (0.99 : ℝ) ≤
        3 / ((2.381 : ℝ) ^ 3 + (2.381 : ℝ) ^ 3) ^ ((1 : ℝ) / 3) := by
      rw [le_div_iff₀ hcpos]
      have h1 : ((0.99 : ℝ) *
          ((2.381 : ℝ) ^ 3 + (2.381 : ℝ) ^ 3) ^ ((1 : ℝ) / 3)) ^ (3 : ℕ) ≤
          3 ^ (3 : ℕ) := by
        rw [mul_pow, hc3]
        norm_num
      exact le_of_pow_le_pow_left₀ (by norm_num) (by norm_num : (0 : ℝ) ≤ 3) h1
    have hhigh : 3 / ((2.381 : ℝ) ^ 3 + (2.381 : ℝ) ^ 3) ^ ((1 : ℝ) / 3) ≤ 1.01 := by
      rw [div_le_iff₀ hcpos]
      have h1 : (3 : ℝ) ^ (3 : ℕ) ≤ ((1.01 : ℝ) *
          ((2.381 : ℝ) ^ 3 + (2.381 : ℝ) ^ 3) ^ ((1 : ℝ) / 3)) ^ (3 : ℕ) := by
        rw [mul_pow, hc3]
        norm_num
      exact le_of_pow_le_pow_left₀ (by norm_num) (by positivity) h1
    rw [hval]
    exact ⟨hlow, hhigh, by linarith, by linarith⟩
  · have hval : calculate_murray_law_angles 3 0 2.381 = ⟨0, False⟩ := by
      unfold calculate_murray_law_angles
      rw [if_neg (by norm_num)]
    rw [hval]
    exact ⟨rfl, fun h => h⟩

theorem C8_witness :
    ((2 : ℝ) > 0 ∧ (1 : ℝ) > 0 ∧ (1 : ℝ) > 0) ∧
    (calculate_murray_law_angles 2 1 1).murray_ratio =
      2 / ((1 : ℝ) ^ 3 + (1 : ℝ) ^ 3) ^ ((1 : ℝ) / 3) :=
  ⟨by norm_num, ((C8_murray_law.1 2 1 1).1 (by norm_num)).1⟩

/-- C9: `calculate_optimal_viewing_angles` returns no result whenever the
cross product of the two daughter vectors has magnitude below `1e-6`, and
for the perpendicular unit vectors `(1,0,0)` and `(0,1,0)` it returns a
bifurcation angle of 90 degrees with plane normal `(0,0,1)` up to sign. -/
theorem C9_optimal_viewing_angles :
    (∀ (mv : Option V3) (v1 v2 : V3),
      norm3 (cross3 v1 v2) < 1e-6 →
      calculate_optimal_viewing_angles mv (some v1) (some v2) = none) ∧
    (∃ r, calculate_optimal_viewing_angles none
        (some ((1 : ℝ), (0 : ℝ), (0 : ℝ))) (some ((0 : ℝ), (1 : ℝ), (0 : ℝ))) =
        some r ∧
      r.bifurcation_angle = 90 ∧
      (r.plane_normal = ((0 : ℝ), (0 : ℝ), (1 : ℝ)) ∨
        r.plane_normal = ((0 : ℝ), (0 : ℝ), (-1 : ℝ)))) := by
  constructor
  · intro mv v1 v2 h
    unfold calculate_optimal_viewing_angles
    rw [if_neg (by cases mv <;> simp)]
    simp only []
    rw [if_pos h]
  · have hcross : cross3 ((1 : ℝ), (0 : ℝ), (0 : ℝ)) ((0 : ℝ), (1 : ℝ), (0 : ℝ)) =
        ((0 : ℝ), (0 : ℝ), (1 : ℝ)) := by
      norm_num [cross3]
    have hmag : norm3 ((0 : ℝ), (0 : ℝ), (1 : ℝ)) = 1 := by
      simp [norm3]
    unfold calculate_optimal_viewing_angles
    rw [if_neg (by simp)]
    simp only []
    rw [hcross, hmag]
    rw [if_neg (by norm_num)]
    refine ⟨_, rfl, ?_, ?_⟩
    · show Real.arccos
          (clip (dot3 ((1 : ℝ), (0 : ℝ), (0 : ℝ)) ((0 : ℝ), (1 : ℝ), (0 : ℝ))) (-1) 1) *
          (180 / Real.pi) = 90
      have hdot : dot3 ((1 : ℝ), (0 : ℝ), (0 : ℝ)) ((0 : ℝ), (1 : ℝ), (0 : ℝ)) = 0 := by
        norm_num [dot3]
      rw [hdot]
      have hclip : clip (0 : ℝ) (-1) 1 = 0 := by
        simp [clip]
      rw [hclip, Real.arccos_zero]
      have hpi : Real.pi ≠ 0 := Real.pi_ne_zero
      field_simp
      ring
    · refine Or.inl ?_
      show ((0 : ℝ) / 1, (0 : ℝ) / 1, (1 : ℝ) / 1) = ((0 : ℝ), (0 : ℝ), (1 : ℝ))
      norm_num

theorem C9_witness :
    norm3 (cross3 ((1 : ℝ), (0 : ℝ), (0 : ℝ)) ((1 : ℝ), (0 : ℝ), (0 : ℝ))) < 1e-6 ∧
    calculate_optimal_viewing_angles none (some ((1 : ℝ), (0 : ℝ), (0 : ℝ)))
      (some ((1 : ℝ), (0 : ℝ), (0 : ℝ))) = none := by
  have hc : cross3 ((1 : ℝ), (0 : ℝ), (0 : ℝ)) ((1 : ℝ), (0 : ℝ), (0 : ℝ)) =
      ((0 : ℝ), (0 : ℝ), (0 : ℝ)) := by
    norm_num [cross3]
  have hlt : norm3 (cross3 ((1 : ℝ), (0 : ℝ), (0 : ℝ)) ((1 : ℝ), (0 : ℝ), (0 : ℝ))) < 1e-6 := by
    rw [hc]
    have hm : norm3 ((0 : ℝ), (0 : ℝ), (0 : ℝ)) = 0 := by
      simp [norm3]
    rw [hm]
    norm_num
  exact ⟨hlt, C9_optimal_viewing_angles.1 none ((1 : ℝ), (0 : ℝ), (0 : ℝ))
    ((1 : ℝ), (0 : ℝ), (0 : ℝ)) hlt⟩

/-- C10: `perform_manual_3d_reconstruction` with fewer than two views of
processed tracking data does not raise: it returns the zero result with
`total_points = 0`, empty `branches_3d` and `bifurcations` lists and
confidence `0.0`. -/
theorem C10_manual_reconstruction_too_few_views :
    ∀ (tracking : List TrackView) (depthOf : String → Nat → ℝ),
      tracking.length < 2 →
      perform_manual_3d_reconstruction tracking depthOf =
        ⟨0, [], [], 0⟩ := by
  intro tracking depthOf h
  unfold perform_manual_3d_reconstruction
  rw [if_pos h]

theorem C10_witness :
    ([] : List TrackView).length < 2 ∧
    perform_manual_3d_reconstruction [] (fun _ _ => 0) = ⟨0, [], [], 0⟩ :=
  ⟨by norm_num,
    C10_manual_reconstruction_too_few_views [] (fun _ _ => 0) (by norm_num)⟩
